import Mathlib

/-!
Verification model of the todo-tree repository (Rust).

Shallow embedding of the code in `src/core/src/priority.rs`,
`src/core/src/tags.rs`, `src/core/src/types.rs` and
`src/cli/src/parser.rs`.  Strings are modelled as `String`/`List Char`;
the `regex` crate's matching of the one fixed pattern shape used by the
parser (`DEFAULT_REGEX` with the `$TAGS` alternation substituted) is
modelled by a matcher specialised to that pattern, with the crate's
leftmost-first (preference-order) semantics: alternation branches are
tried in pattern order, repetitions are greedy with backtracking.
The crate's case-insensitive matching uses Unicode *simple case folding*
(Unicode mode is on by default), which is modelled here on every fold
orbit that intersects ASCII: the ASCII letters together with U+212A
KELVIN SIGN (folds to `k`) and U+017F LATIN SMALL LETTER LONG S (folds
to `s`) — the only two characters whose simple fold crosses into ASCII.
Folding inside purely non-ASCII orbits (`é`/`É`, Cyrillic, …) is not
modelled, an under-approximation no claim touches.  This folding is
deliberately *different* from `eq_ignore_ascii_case` (ASCII-only in Rust
and modelled exactly), which is what makes the `unwrap_or` fallback of
the tag-normalization lookup in `parse_line` a live path.  Rust's
`to_uppercase` is Unicode but every input the claims classify is ASCII,
where the ASCII model is exact.  `HashMap` is modelled as an association
list with first-binding lookup and replace-first insertion; `f64` is
modelled as `ℚ`.
-/

/-- ASCII lower-casing of one character (model of Rust ASCII case folding). -/
def asciiLowerChar (c : Char) : Char :=
  if 'A' ≤ c ∧ c ≤ 'Z' then Char.ofNat (c.toNat + 32) else c

/-- ASCII upper-casing of one character (model of Rust `to_uppercase` on ASCII). -/
def asciiUpperChar (c : Char) : Char :=
  if 'a' ≤ c ∧ c ≤ 'z' then Char.ofNat (c.toNat - 32) else c

/-- Unicode `White_Space` characters: the set matched by the regex class `\s`
and trimmed by Rust's `str::trim`. -/
def isWsChar (c : Char) : Bool :=
  c = ' ' || c = '\t' || c = '\n' || c = '\r' ||
  c.toNat = 0x0B || c.toNat = 0x0C || c.toNat = 0x85 || c.toNat = 0xA0 ||
  c.toNat = 0x1680 || (0x2000 ≤ c.toNat && c.toNat ≤ 0x200A) ||
  c.toNat = 0x2028 || c.toNat = 0x2029 || c.toNat = 0x202F ||
  c.toNat = 0x205F || c.toNat = 0x3000

/-- Unicode simple case folding as used by the regex crate's `(?i)` matching,
modelled on the fold orbits that intersect ASCII: ASCII upper-case letters
fold to lower case, U+212A KELVIN SIGN folds to `k` and U+017F LATIN SMALL
LETTER LONG S folds to `s` (the only non-ASCII characters whose simple fold
is an ASCII letter); characters in purely non-ASCII orbits are left fixed. -/
def simpleFold (c : Char) : Char :=
  if 'A' ≤ c ∧ c ≤ 'Z' then Char.ofNat (c.toNat + 32)
  else if c.toNat = 0x212A then 'k'
  else if c.toNat = 0x17F then 's'
  else c

/-- Character comparison used by the regex matcher: exact when case-sensitive,
Unicode simple case folding when the pattern was compiled case-insensitively
(`RegexBuilder::case_insensitive`).  Note this folding is coarser than the
ASCII-only `eq_ignore_ascii_case` used later by the tag-normalization
lookup: a tag can match a line under `(?i)` without any configured tag being
`eq_ignore_ascii_case`-equal to the matched text. -/
def charMatches (ci : Bool) (patC inC : Char) : Bool :=
  if ci then simpleFold patC = simpleFold inC else patC = inC

/-- Model of Rust `str::eq_ignore_ascii_case`. -/
def eqIgnoreAsciiCase (a b : String) : Bool :=
  a.data.map asciiLowerChar = b.data.map asciiLowerChar

/-- ASCII upper-casing of a string (model of `tag.to_uppercase()` on ASCII input). -/
def upperAscii (s : String) : String :=
  ⟨s.data.map asciiUpperChar⟩

/-- UTF-8 byte length of a character sequence; Rust regex match offsets
(`Match::start`) are byte offsets into the haystack. -/
def utf8Len (s : List Char) : Nat :=
  (s.map Char.utf8Size).sum

/-- Model of Rust `str::trim` (strip leading and trailing whitespace). -/
def trimChars (s : List Char) : List Char :=
  ((s.dropWhile isWsChar).reverse.dropWhile isWsChar).reverse

/-! ## `src/core/src/priority.rs` -/

/-- Priority levels for different tag types (`enum Priority`). -/
inductive Priority where
  | Low
  | Medium
  | High
  | Critical
deriving DecidableEq, Repr

/-- `Priority::from_tag`: infer priority from tag name; the Rust `match` on
`tag.to_uppercase()` with or-patterns becomes an if-chain over the same
string sets, `_ => Medium` at the end. -/
def Priority.from_tag (tag : String) : Priority :=
  let u := upperAscii tag
  if u = "BUG" ∨ u = "FIXME" ∨ u = "ERROR" then .Critical
  else if u = "HACK" ∨ u = "WARN" ∨ u = "WARNING" ∨ u = "FIX" then .High
  else if u = "TODO" ∨ u = "WIP" ∨ u = "MAYBE" then .Medium
  else if u = "NOTE" ∨ u = "XXX" ∨ u = "INFO" ∨ u = "DOCS" ∨ u = "PERF" ∨
          u = "TEST" ∨ u = "IDEA" then .Low
  else .Medium

/-! ## `src/core/src/tags.rs` -/

/-- Tag definition with metadata (`struct TagDefinition`). -/
structure TagDefinition where
  name : String
  description : String
  priority : Priority
deriving DecidableEq, Repr

/-- `DEFAULT_TAGS`: the default tag catalog, in source order. -/
def DEFAULT_TAGS : List TagDefinition := [
  ⟨"TODO", "General TODO items", .Medium⟩,
  ⟨"WIP", "Work in progress", .Medium⟩,
  ⟨"MAYBE", "Potential future work", .Medium⟩,
  ⟨"FIXME", "Items that need fixing", .Critical⟩,
  ⟨"BUG", "Known bugs", .Critical⟩,
  ⟨"ERROR", "Error handling needed", .Critical⟩,
  ⟨"HACK", "Hacky solutions", .High⟩,
  ⟨"WARN", "Warnings", .High⟩,
  ⟨"WARNING", "Warning about potential issues", .High⟩,
  ⟨"FIX", "Quick fix needed", .High⟩,
  ⟨"NOTE", "Notes and documentation", .Low⟩,
  ⟨"XXX", "Items requiring attention", .Low⟩,
  ⟨"INFO", "Informational notes", .Low⟩,
  ⟨"DOCS", "Documentation needed", .Low⟩,
  ⟨"PERF", "Performance issues", .Low⟩,
  ⟨"TEST", "Test-related items", .Low⟩,
  ⟨"IDEA", "Ideas for future consideration", .Low⟩]

/-! ## `src/core/src/types.rs`: `TodoItem` -/

/-- One found TODO annotation (`struct TodoItem`). -/
structure TodoItem where
  tag : String
  message : String
  line : Nat
  column : Nat
  line_content : Option String
  author : Option String
  priority : Priority
deriving DecidableEq, Repr

/-! ## The default pattern matcher (`src/cli/src/parser.rs`)

`DEFAULT_REGEX` is
`(//|#|<!--|;|/\*|\*|--|%|"""|'''|REM\s|::)\s*($TAGS)(?:\(([^)]+)\))?[:\s]+(.*)`.
The matcher below implements exactly this shape: group 1 is the comment
marker alternation (in pattern order; `REM\s` is the literal `REM`
followed by one whitespace character), then greedy `\s*`, then the tag
alternation in configured order, then the optional author group
`(?:\(([^)]+)\))?` (greedy: tried first, dropped on failure), then a
mandatory greedy run `[:\s]+`, then `(.*)` capturing up to the next
newline.  The search is leftmost: start positions are tried left to right.
-/

/-- One alternative of the comment-marker group: a literal, or `REM\s`. -/
inductive Marker where
  | lit (cs : List Char)
  | remWs
deriving DecidableEq, Repr

/-- The comment-marker alternatives of `DEFAULT_REGEX`, in pattern order:
`//`, `#`, `<!--`, `;`, `/*`, `*`, `--`, `%`, `"""`, `'''`, `REM\s`, `::`. -/
def markerAlts : List Marker := [
  .lit ['/', '/'],
  .lit ['#'],
  .lit ['<', '!', '-', '-'],
  .lit [';'],
  .lit ['/', '*'],
  .lit ['*'],
  .lit ['-', '-'],
  .lit ['%'],
  .lit ['"', '"', '"'],
  .lit ['\'', '\'', '\''],
  .remWs,
  .lit [':', ':']]

/-- Match a literal (a marker literal or an escaped tag) at the head of the
input, honouring the pattern-wide case-insensitivity flag; returns the rest. -/
def matchLit (ci : Bool) : List Char → List Char → Option (List Char)
  | [], s => some s
  | _ :: _, [] => none
  | p :: ps, c :: cs => if charMatches ci p c then matchLit ci ps cs else none

/-- Match one marker alternative at the head of the input. -/
def matchMarkerAlt (ci : Bool) : Marker → List Char → Option (List Char)
  | .lit l, s => matchLit ci l s
  | .remWs, s =>
    match matchLit ci ['R', 'E', 'M'] s with
    | none => none
    | some s2 =>
      match s2 with
      | [] => none
      | c :: rest => if isWsChar c then some rest else none

/-- The mandatory separator `[:\s]+` (greedy): consumes the maximal non-empty
run of colons/whitespace, returning the rest; fails on an empty run. -/
def sepSplit (s : List Char) : Option (List Char) :=
  let run := s.takeWhile (fun c => c = ':' || isWsChar c)
  if run.isEmpty then none else some (s.drop run.length)

/-- The author group body `\(([^)]+)\)`: an opening parenthesis, a maximal
non-empty run of non-`)` characters, a closing parenthesis.  Returns the
captured author text and the rest. -/
def authorAttempt (s : List Char) : Option (List Char × List Char) :=
  match s with
  | '(' :: rest =>
    let content := rest.takeWhile (fun c => c ≠ ')')
    if content.isEmpty then none
    else
      match rest.drop content.length with
      | ')' :: rest2 => some (content, rest2)
      | _ => none
  | _ => none

/-- What must follow the tag: the optional (greedy) author group, then the
mandatory separator.  If the author group matches but the separator after it
fails, backtracking retries without the author group (as the regex engine
does for `(?:...)?`). -/
def afterTag (s : List Char) : Option (Option (List Char) × List Char) :=
  match authorAttempt s with
  | some (a, s2) =>
    match sepSplit s2 with
    | some s3 => some (some a, s3)
    | none => (sepSplit s).map (fun s3 => (none, s3))
  | none => (sepSplit s).map (fun s3 => (none, s3))

/-- Try the tag alternation (configured order) at the head of the input; on a
literal tag match the continuation `afterTag` must also succeed, otherwise
the next alternative is tried.  Returns the matched raw tag text (original
input spelling), the optional author, and the message (`(.*)`, up to a
newline). -/
def matchTagRest (ci : Bool) (tags : List (List Char)) (s : List Char) :
    Option (List Char × Option (List Char) × List Char) :=
  tags.findSome? (fun t =>
    match matchLit ci t s with
    | none => none
    | some s2 =>
      match afterTag s2 with
      | none => none
      | some (a, s3) => some (s.take t.length, a, s3.takeWhile (fun c => c ≠ '\n')))

/-- Greedy `\s*` with backtracking: try consuming `k` whitespace characters,
largest first, before the tag alternation.  Returns the number consumed and
the tag-and-rest result. -/
def tryWs (ci : Bool) (tags : List (List Char)) (s : List Char) :
    Nat → Option (Nat × List Char × Option (List Char) × List Char)
  | 0 => (matchTagRest ci tags s).map (fun r => (0, r))
  | k + 1 =>
    match matchTagRest ci tags (s.drop (k + 1)) with
    | some r => some (k + 1, r)
    | none => tryWs ci tags s k

/-- Result of a successful pattern match: the tag's match start (character
index into the haystack), the raw tag text as it appears in the input, the
optional author capture, and the message capture. -/
structure MatchRes where
  tagStart : Nat
  rawTag : List Char
  author : Option (List Char)
  msg : List Char
deriving DecidableEq, Repr

/-- Attempt a match anchored at the current suffix: some marker alternative
(in pattern order), greedy whitespace, then the tag and its continuation.
`tagStart` is relative to the suffix. -/
def matchAt (ci : Bool) (tags : List (List Char)) (s : List Char) : Option MatchRes :=
  markerAlts.findSome? (fun alt =>
    match matchMarkerAlt ci alt s with
    | none => none
    | some s2 =>
      let maxWs := (s2.takeWhile isWsChar).length
      match tryWs ci tags s2 maxWs with
      | none => none
      | some (k, rawTag, author, msg) =>
        some ⟨s.length - s2.length + k, rawTag, author, msg⟩)

/-- Leftmost search: try each start position of the haystack left to right;
`i` counts the characters already passed, so the returned `tagStart` is
absolute. -/
def searchFrom (ci : Bool) (tags : List (List Char)) : List Char → Nat → Option MatchRes
  | s, i =>
    match matchAt ci tags s with
    | some m => some { m with tagStart := i + m.tagStart }
    | none =>
      match s with
      | [] => none
      | _ :: rest => searchFrom ci tags rest (i + 1)

/-! ## `TodoParser` (`src/cli/src/parser.rs`) -/

/-- The parser state the claims need: the configured tags and the
case-sensitivity flag (`build_pattern` compiles the pattern from exactly
these, with `pattern = None` iff the tag list is empty). -/
structure TodoParser where
  tags : List String
  case_sensitive : Bool

/-- `TodoParser::parse_line`: match the compiled default pattern against one
line; on a match build the `TodoItem` — group 2 is the tag (column = its
byte-offset match start + 1), group 3 the optional author, group 4 the
message (trimmed).  In case-insensitive mode the emitted tag is rewritten to
the first configured tag that ASCII-case-insensitively equals the matched
text. -/
def TodoParser.parse_line (p : TodoParser) (line : String) (line_number : Nat) :
    Option TodoItem :=
  if p.tags.isEmpty then none
  else
    match searchFrom (!p.case_sensitive) (p.tags.map String.data) line.data 0 with
    | none => none
    | some m =>
      let tag : String := ⟨m.rawTag⟩
      let normalized_tag :=
        if p.case_sensitive then tag
        else ((p.tags.find? (fun t => eqIgnoreAsciiCase t tag)).getD tag)
      some {
        tag := normalized_tag,
        message := ⟨trimChars m.msg⟩,
        line := line_number,
        column := utf8Len (line.data.take m.tagStart) + 1,
        line_content := some line,
        author := m.author.map (fun a => ⟨a⟩),
        priority := Priority.from_tag normalized_tag }

/-! ## `src/core/src/types.rs`: `Summary`, `FileResult`, `ScanResult`

`HashMap<String, usize>` / `HashMap<PathBuf, Vec<TodoItem>>` are modelled as
association lists with first-binding lookup; `entry(..).or_insert(0) += 1`
and `insert` bump/replace the first binding with the key, appending a fresh
binding when none exists.  Paths are modelled as strings.  `f64` is
modelled as `ℚ` (exact for the division-guard behaviour the spec states).
-/

/-- `tag_counts.entry(tag).or_insert(0) += 1` on the association-list model. -/
def bumpTag : List (String × Nat) → String → List (String × Nat)
  | [], t => [(t, 1)]
  | (k, v) :: rest, t =>
    if k = t then (k, v + 1) :: rest else (k, v) :: bumpTag rest t

/-- `tag_counts[t]` with default 0 (first binding wins, matching `HashMap`). -/
def countOf : List (String × Nat) → String → Nat
  | [], _ => 0
  | (k, v) :: rest, t => if k = t then v else countOf rest t

/-- Sum of the values of a counts map (`tag_counts.values().sum()`). -/
def sumValues (m : List (String × Nat)) : Nat :=
  (m.map (fun kv => kv.2)).sum

/-- `files_map.insert(path, items)`: replace the first binding or append. -/
def insertFile : List (String × List TodoItem) → String → List TodoItem →
    List (String × List TodoItem)
  | [], p, its => [(p, its)]
  | (k, v) :: rest, p, its =>
    if k = p then (k, its) :: rest else (k, v) :: insertFile rest p its

/-- `files_map.get(path)` (first binding wins). -/
def lookupFile : List (String × List TodoItem) → String → Option (List TodoItem)
  | [], _ => none
  | (k, v) :: rest, p => if k = p then some v else lookupFile rest p

/-- Summary statistics from a scan (`struct Summary`). -/
structure Summary where
  total_count : Nat
  files_with_todos : Nat
  files_scanned : Nat
  tag_counts : List (String × Nat)
deriving DecidableEq, Repr

/-- `Summary::avg_items_per_file`: average items per file with a guard
returning `0.0` when no file has todos (`f64` modelled as `ℚ`). -/
def Summary.avg_items_per_file (s : Summary) : ℚ :=
  if s.files_with_todos > 0 then
    (s.total_count : ℚ) / (s.files_with_todos : ℚ)
  else 0

/-- `Summary::tag_percentage`: percentage of the total a count represents,
with a guard returning `0.0` when the total is zero. -/
def Summary.tag_percentage (s : Summary) (count : Nat) : ℚ :=
  if s.total_count > 0 then
    ((count : ℚ) / (s.total_count : ℚ)) * 100
  else 0

/-- A file with its items, for the JSON-shaped view (`struct FileResult`). -/
structure FileResult where
  path : String
  items : List TodoItem
deriving DecidableEq, Repr

/-- Result of scanning a directory (`struct ScanResult`). -/
structure ScanResult where
  files : Option (List FileResult)
  files_map : List (String × List TodoItem)
  summary : Summary
  root : Option String
deriving DecidableEq, Repr

/-- `ScanResult::new`: empty result for a root. -/
def ScanResult.new (root : String) : ScanResult :=
  { files := none,
    files_map := [],
    summary := { total_count := 0, files_with_todos := 0, files_scanned := 0,
                 tag_counts := [] },
    root := some root }

/-- `ScanResult::add_file`: always bump `files_scanned`; when `items` is
non-empty also bump `files_with_todos`, add `items.len()` to `total_count`,
bump `tag_counts` once per item, and store the list under `path`. -/
def ScanResult.add_file (r : ScanResult) (path : String) (items : List TodoItem) :
    ScanResult :=
  let s0 := { r.summary with files_scanned := r.summary.files_scanned + 1 }
  if items.isEmpty then { r with summary := s0 }
  else
    { r with
      summary :=
        { s0 with
          files_with_todos := s0.files_with_todos + 1,
          total_count := s0.total_count + items.length,
          tag_counts := items.foldl (fun m it => bumpTag m it.tag) s0.tag_counts },
      files_map := insertFile r.files_map path items }

/-- The per-item predicate of `filter_by_tag`:
`item.tag.eq_ignore_ascii_case(tag)`. -/
def tagFilter (tag : String) (items : List TodoItem) : List TodoItem :=
  items.filter (fun it => eqIgnoreAsciiCase it.tag tag)

/-- The loop body of `filter_by_tag`: filter one stored file's items and
replay `add_file` when anything is left. -/
def filterStep (tag : String) (acc : ScanResult) (pr : String × List TodoItem) :
    ScanResult :=
  let filtered := tagFilter tag pr.2
  if filtered.isEmpty then acc else acc.add_file pr.1 filtered

/-- `ScanResult::filter_by_tag`: start from a fresh result whose
`files_scanned` is set to the source's, then for every stored file replay
`add_file` with the items whose tag ASCII-case-insensitively equals `tag`,
skipping files left empty by the filter.  (Note: each replayed `add_file`
increments `files_scanned` again.) -/
def ScanResult.filter_by_tag (r : ScanResult) (tag : String) : ScanResult :=
  let root := r.root.getD "."
  let base := ScanResult.new root
  let init : ScanResult :=
    { base with summary := { base.summary with files_scanned := r.summary.files_scanned } }
  r.files_map.foldl (filterStep tag) init

/-! ## `TodoParser::build_pattern` (`src/cli/src/parser.rs`)

The pattern-compilation step.  Whether a concrete pattern string is valid
regex syntax is decided by the external `regex` crate; the model abstracts
that check as a parameter `compileOk`.  The Rust code's
`.expect("Failed to build regex pattern")` — a fatal panic raised while the
parser is constructed, before any scanning — is modelled as the `fatal`
outcome carrying the panic message.
-/

/-- Characters `regex::escape` prefixes with a backslash (the crate's
meta-character set). -/
def isRegexMeta (c : Char) : Bool :=
  c = '\\' || c = '.' || c = '+' || c = '*' || c = '?' || c = '(' || c = ')' ||
  c = '|' || c = '[' || c = ']' || c = '{' || c = '}' || c = '^' || c = '$' ||
  c = '#' || c = '&' || c = '-' || c = '~'

/-- `regex::escape` on one tag. -/
def regexEscape (t : String) : String :=
  ⟨t.data.foldr (fun c acc => if isRegexMeta c then '\\' :: c :: acc else c :: acc) []⟩

/-- Rust `str::replace`: replace every non-overlapping occurrence of `pat`
left to right (the code only ever replaces the non-empty `$TAGS`; an empty
pattern is treated as matching nowhere). -/
def replaceAll (pat rep : List Char) : List Char → List Char
  | [] => []
  | c :: rest =>
    if pat.isPrefixOf (c :: rest) ∧ ¬ pat.isEmpty then
      rep ++ replaceAll pat rep (rest.drop (pat.length - 1))
    else
      c :: replaceAll pat rep rest
termination_by s => s.length
decreasing_by
  · simp only [List.length_drop, List.length_cons]
    omega
  · simp only [List.length_cons]
    omega

/-- `DEFAULT_REGEX`, the default comment-aware template (built by
concatenation so the triple-quote runs stay readable). -/
def DEFAULT_REGEX : String :=
  "(//|#|<!--|;|/\\*|\\*|--|%|\"\"\"|" ++ ⟨['\'', '\'', '\'']⟩ ++
  "|REM\\s|::)\\s*($TAGS)(?:\\(([^)]+)\\))?[:\\s]+(.*)"

/-- Outcome of `build_pattern`: either the `(Option<Regex>, Option<String>)`
pair (the compiled pattern represented by its pattern string) or the fatal
`.expect` panic with its message. -/
inductive BuildResult where
  | ok (pattern : Option String) (pattern_string : Option String)
  | fatal (msg : String)
deriving DecidableEq, Repr

/-- `TodoParser::build_pattern`: `(None, None)` for an empty tag list;
otherwise escape the tags, join them with `|`, substitute for `$TAGS` in the
template (the custom one if supplied, else `DEFAULT_REGEX`), and compile —
a failed compilation is the fatal `.expect` panic. -/
def build_pattern (compileOk : String → Bool) (tags : List String)
    (custom_regex : Option String) : BuildResult :=
  if tags.isEmpty then .ok none none
  else
    let escaped_tags := tags.map regexEscape
    let tags_alternation := String.intercalate "|" escaped_tags
    let base_pattern := custom_regex.getD DEFAULT_REGEX
    let pattern_string : String :=
      ⟨replaceAll "$TAGS".data tags_alternation.data base_pattern.data⟩
    if compileOk pattern_string then .ok (some pattern_string) (some pattern_string)
    else .fatal "Failed to build regex pattern"

/-- The tag spellings `Priority::from_tag` recognizes (upper-cased forms). -/
def knownTagSpellings : List String :=
  ["BUG", "FIXME", "ERROR", "HACK", "WARN", "WARNING", "FIX",
   "TODO", "WIP", "MAYBE", "NOTE", "XXX", "INFO", "DOCS", "PERF", "TEST", "IDEA"]

/-- The consistency invariant of a `ScanResult`: `total_count` equals the sum
of the `tag_counts` values, `files_with_todos` never exceeds `files_scanned`,
and every stored item list is non-empty (a path appears in the mapping only
with a non-empty list). -/
def ScanInv (r : ScanResult) : Prop :=
  r.summary.total_count = sumValues r.summary.tag_counts ∧
  r.summary.files_with_todos ≤ r.summary.files_scanned ∧
  ∀ p its, lookupFile r.files_map p = some its → its ≠ []

/-- "A comment marker precedes a tag-shaped token at this position": some
marker alternative matches at the head, and after it, separated only by
(part of) the following whitespace run, some configured tag literal matches.
This is exactly the `marker · \s* · tag` prefix of the compiled pattern. -/
def markerTagHere (ci : Bool) (tags : List (List Char)) (s : List Char) : Bool :=
  markerAlts.any (fun alt =>
    match matchMarkerAlt ci alt s with
    | none => false
    | some s2 =>
      (List.range ((s2.takeWhile isWsChar).length + 1)).any (fun k =>
        tags.any (fun t => (matchLit ci t (s2.drop k)).isSome)))

/-- Somewhere in the line a comment marker precedes a tag-shaped token. -/
def hasMarkerTag (ci : Bool) (tags : List (List Char)) : List Char → Bool
  | [] => markerTagHere ci tags []
  | c :: rest => markerTagHere ci tags (c :: rest) || hasMarkerTag ci tags rest

/-! ## Auxiliary lemmas -/

theorem length_le_utf8Len (l : List Char) : l.length ≤ utf8Len l := by
  induction l with
  | nil => simp [utf8Len]
  | cons c rest ih =>
    have hc := Char.utf8Size_pos c
    simp only [utf8Len, List.map_cons, List.sum_cons, List.length_cons] at *
    omega

theorem lt_utf8Len_of_big (l : List Char) (h : ∃ c ∈ l, 1 < c.utf8Size) :
    l.length < utf8Len l := by
  induction l with
  | nil => simp at h
  | cons c rest ih =>
    have hc := Char.utf8Size_pos c
    have hr := length_le_utf8Len rest
    rcases h with ⟨d, hd, hbig⟩
    rcases List.mem_cons.mp hd with rfl | hmem
    · simp only [utf8Len, List.map_cons, List.sum_cons, List.length_cons] at *
      omega
    · have := ih ⟨d, hmem, hbig⟩
      simp only [utf8Len, List.map_cons, List.sum_cons, List.length_cons] at *
      omega

theorem length_takeWhile_le' {α : Type} (p : α → Bool) (l : List α) :
    (l.takeWhile p).length ≤ l.length := by
  induction l with
  | nil => simp
  | cons a rest ih =>
    by_cases h : p a
    · simp [List.takeWhile_cons, h]; omega
    · simp [List.takeWhile_cons, h]

/-! ## Claim C2 -/

/-- **C2.** `parse_line` on `"// TODO: Fix this later"` with tags
`["TODO","FIXME"]`, case-insensitive, line 1, returns the `TodoItem` with
tag `"TODO"`, message `"Fix this later"`, line 1, column 4 (the 1-indexed
start of `TODO`, not of the `//` marker), no author and priority Medium. -/
theorem claim_C2_scenario_a :
    (TodoParser.mk ["TODO", "FIXME"] false).parse_line "// TODO: Fix this later" 1 =
      some ⟨"TODO", "Fix this later", 1, 4, some "// TODO: Fix this later", none,
        .Medium⟩ := by
  decide

/-! ## Claim C8 -/

/-- **C8.** `Summary.avg_items_per_file` is `total_count / files_with_todos`
when `files_with_todos` is positive and exactly `0` when it is zero;
`Summary.tag_percentage count` is `count / total_count * 100` when
`total_count` is positive and exactly `0` when it is zero — the zero-denominator
guards make both total. -/
theorem claim_C8_division_guards (s : Summary) (count : Nat) :
    (s.files_with_todos = 0 → s.avg_items_per_file = 0) ∧
    (0 < s.files_with_todos →
      s.avg_items_per_file * (s.files_with_todos : ℚ) = (s.total_count : ℚ)) ∧
    (s.total_count = 0 → s.tag_percentage count = 0) ∧
    (0 < s.total_count →
      s.tag_percentage count * (s.total_count : ℚ) = (count : ℚ) * 100) := by
  refine ⟨?_, ?_, ?_, ?_⟩
  · intro h
    simp [Summary.avg_items_per_file, h]
  · intro h
    have hne : (s.files_with_todos : ℚ) ≠ 0 := Nat.cast_ne_zero.mpr (Nat.pos_iff_ne_zero.mp h)
    simp only [Summary.avg_items_per_file, if_pos h]
    exact div_mul_cancel₀ _ hne
  · intro h
    simp [Summary.tag_percentage, h]
  · intro h
    have hne : (s.total_count : ℚ) ≠ 0 := Nat.cast_ne_zero.mpr (Nat.pos_iff_ne_zero.mp h)
    simp only [Summary.tag_percentage, if_pos h]
    field_simp

/-- Witness for C8 at a concrete summary. -/
theorem claim_C8_witness :
    (0 < (3 : Nat) ∧
      (Summary.mk 6 3 5 []).avg_items_per_file * ((3 : Nat) : ℚ) = ((6 : Nat) : ℚ)) ∧
    ((0 : Nat) = 0 → (Summary.mk 0 0 5 []).avg_items_per_file = 0) := by
  refine ⟨⟨by decide, ?_⟩, ?_⟩
  · exact (claim_C8_division_guards (Summary.mk 6 3 5 []) 0).2.1 (by decide)
  · intro _
    exact (claim_C8_division_guards (Summary.mk 0 0 5 []) 0).1 rfl

/-! ## Claim C9 -/

/-- **C9.** For every non-empty tag list and every custom template whose
substituted pattern fails to compile, `build_pattern` signals the fatal
configuration error (the `.expect` panic raised while the parser is being
constructed, hence before any scanning) rather than silently ignoring the
bad template: the outcome is `fatal` with the panic message, never an `ok`
pattern. -/
theorem claim_C9_invalid_template_fatal (compileOk : String → Bool)
    (tags : List String) (template : String)
    (hne : tags ≠ [])
    (hbad : compileOk
      ⟨replaceAll "$TAGS".data
        (String.intercalate "|" (tags.map regexEscape)).data template.data⟩ = false) :
    build_pattern compileOk tags (some template) =
      .fatal "Failed to build regex pattern" ∧
    ∀ p ps, build_pattern compileOk tags (some template) ≠ .ok p ps := by
  have hemp : tags.isEmpty = false := by
    cases tags with
    | nil => exact absurd rfl hne
    | cons a l => rfl
  constructor
  · simp only [build_pattern, hemp, Bool.false_eq_true, if_false, Option.getD_some, hbad]
  · intro p ps
    simp only [build_pattern, hemp, Bool.false_eq_true, if_false, Option.getD_some, hbad]
    intro hcontra
    exact BuildResult.noConfusion hcontra

/-- Witness for C9: a tag list `["TODO"]` and the malformed template `"("`
(unclosed group) under a compiler that rejects it. -/
theorem claim_C9_witness :
    (["TODO"] : List String) ≠ [] ∧
    build_pattern (fun _ => false) ["TODO"] (some "(") =
      .fatal "Failed to build regex pattern" := by
  refine ⟨by decide, ?_⟩
  exact (claim_C9_invalid_template_fatal (fun _ => false) ["TODO"] "("
    (by decide) rfl).1

/-! ## Claim C4 -/

/-- **C4.** `Priority.from_tag` classifies case-insensitively (two tags with
the same upper-casing classify alike), follows the fixed table
(BUG/FIXME/ERROR → Critical; HACK/WARN/WARNING/FIX → High; TODO/WIP/MAYBE →
Medium; NOTE/XXX/INFO/DOCS/PERF/TEST/IDEA → Low), maps every unrecognized
tag to Medium, and agrees with the `DEFAULT_TAGS` catalog entry for every
catalog tag. -/
theorem claim_C4_priority_classifier :
    (∀ s t : String, upperAscii s = upperAscii t →
      Priority.from_tag s = Priority.from_tag t) ∧
    (Priority.from_tag "BUG" = .Critical ∧ Priority.from_tag "FIXME" = .Critical ∧
     Priority.from_tag "ERROR" = .Critical ∧ Priority.from_tag "HACK" = .High ∧
     Priority.from_tag "WARN" = .High ∧ Priority.from_tag "WARNING" = .High ∧
     Priority.from_tag "FIX" = .High ∧ Priority.from_tag "TODO" = .Medium ∧
     Priority.from_tag "WIP" = .Medium ∧ Priority.from_tag "MAYBE" = .Medium ∧
     Priority.from_tag "NOTE" = .Low ∧ Priority.from_tag "XXX" = .Low ∧
     Priority.from_tag "INFO" = .Low ∧ Priority.from_tag "DOCS" = .Low ∧
     Priority.from_tag "PERF" = .Low ∧ Priority.from_tag "TEST" = .Low ∧
     Priority.from_tag "IDEA" = .Low) ∧
    (∀ t : String, upperAscii t ∉ knownTagSpellings →
      Priority.from_tag t = .Medium) ∧
    (∀ td ∈ DEFAULT_TAGS, Priority.from_tag td.name = td.priority) := by
  refine ⟨?_, by decide, ?_, by decide⟩
  · intro s t h
    simp only [Priority.from_tag, h]
  · intro t h
    simp only [knownTagSpellings, List.mem_cons, List.not_mem_nil, or_false] at h
    push_neg at h
    obtain ⟨h1, h2, h3, h4, h5, h6, h7, h8, h9, h10, h11, h12, h13, h14, h15, h16, h17⟩ := h
    simp only [Priority.from_tag]
    rw [if_neg (by tauto), if_neg (by tauto), if_neg (by tauto), if_neg (by tauto)]

/-- Witness for C4: case-insensitivity applied at `"Bug"`/`"bug"`, and the
unrecognized tag `"CUSTOM"` mapping to Medium. -/
theorem claim_C4_witness :
    (upperAscii "Bug" = upperAscii "bug" ∧
      Priority.from_tag "Bug" = Priority.from_tag "bug") ∧
    (upperAscii "CUSTOM" ∉ knownTagSpellings ∧
      Priority.from_tag "CUSTOM" = .Medium) := by
  refine ⟨⟨by decide, ?_⟩, ⟨by decide, ?_⟩⟩
  · exact claim_C4_priority_classifier.1 "Bug" "bug" (by decide)
  · exact claim_C4_priority_classifier.2.2.1 "CUSTOM" (by decide)

/-! ## Association-list lemmas for the `ScanResult` model -/

theorem countOf_bumpTag (m : List (String × Nat)) (t t' : String) :
    countOf (bumpTag m t) t' = countOf m t' + (if t' = t then 1 else 0) := by
  induction m with
  | nil =>
    by_cases h : t = t'
    · subst h
      simp [bumpTag, countOf]
    · simp [bumpTag, countOf, h, Ne.symm h]
  | cons kv rest ih =>
    obtain ⟨k, v⟩ := kv
    by_cases hk : k = t
    · subst hk
      by_cases h' : k = t'
      · subst h'
        simp [bumpTag, countOf]
      · simp [bumpTag, countOf, h', Ne.symm h']
    · by_cases h' : k = t'
      · subst h'
        have ht : ¬ (k = t) := hk
        simp [bumpTag, countOf, ht, if_neg (Ne.symm ht)]
      · simp [bumpTag, countOf, hk, h', ih]

theorem sumValues_bumpTag (m : List (String × Nat)) (t : String) :
    sumValues (bumpTag m t) = sumValues m + 1 := by
  induction m with
  | nil => simp [bumpTag, sumValues]
  | cons kv rest ih =>
    obtain ⟨k, v⟩ := kv
    by_cases hk : k = t
    · simp [bumpTag, sumValues, hk]
      omega
    · simp only [bumpTag, if_neg hk, sumValues, List.map_cons, List.sum_cons] at *
      omega

theorem countOf_foldl_bump (items : List TodoItem) (m : List (String × Nat))
    (t : String) :
    countOf (items.foldl (fun acc it => bumpTag acc it.tag) m) t =
      countOf m t + (items.filter (fun it => it.tag = t)).length := by
  induction items generalizing m with
  | nil => simp
  | cons it rest ih =>
    simp only [List.foldl_cons, ih, countOf_bumpTag]
    by_cases h : it.tag = t
    · simp [List.filter_cons, h]
      omega
    · have h' : ¬ (t = it.tag) := fun hc => h hc.symm
      simp [List.filter_cons, h, h']

theorem sumValues_foldl_bump (items : List TodoItem) (m : List (String × Nat)) :
    sumValues (items.foldl (fun acc it => bumpTag acc it.tag) m) =
      sumValues m + items.length := by
  induction items generalizing m with
  | nil => simp
  | cons it rest ih =>
    simp only [List.foldl_cons, ih, sumValues_bumpTag, List.length_cons]
    omega

theorem lookupFile_insertFile (m : List (String × List TodoItem)) (p q : String)
    (its : List TodoItem) :
    lookupFile (insertFile m p its) q = if q = p then some its else lookupFile m q := by
  induction m with
  | nil =>
    by_cases h : q = p
    · subst h
      simp [insertFile, lookupFile]
    · simp [insertFile, lookupFile, h, Ne.symm h]
  | cons kv rest ih =>
    obtain ⟨k, v⟩ := kv
    by_cases hk : k = p
    · subst hk
      by_cases h : q = k
      · subst h
        simp [insertFile, lookupFile]
      · simp [insertFile, lookupFile, h, Ne.symm h]
    · by_cases h : q = k
      · subst h
        simp [insertFile, lookupFile, hk]
      · simp [insertFile, lookupFile, hk, h, Ne.symm h, ih]

/-! ## Claim C5 -/

/-- **C5.** `add_file` always increments `files_scanned` by one; with a
non-empty item list it also increments `files_with_todos` by one, adds the
list length to `total_count`, bumps `tag_counts` once per item of each tag,
and stores the list under the path; with an empty list it leaves
`files_with_todos`, `total_count`, `tag_counts` and the file map unchanged. -/
theorem claim_C5_add_file (r : ScanResult) (path : String) (items : List TodoItem) :
    (r.add_file path items).summary.files_scanned = r.summary.files_scanned + 1 ∧
    (items ≠ [] →
      (r.add_file path items).summary.files_with_todos
        = r.summary.files_with_todos + 1 ∧
      (r.add_file path items).summary.total_count
        = r.summary.total_count + items.length ∧
      (∀ t, countOf (r.add_file path items).summary.tag_counts t
        = countOf r.summary.tag_counts t + (items.filter (fun it => it.tag = t)).length) ∧
      lookupFile (r.add_file path items).files_map path = some items) ∧
    (items = [] →
      (r.add_file path items).summary.files_with_todos = r.summary.files_with_todos ∧
      (r.add_file path items).summary.total_count = r.summary.total_count ∧
      (r.add_file path items).summary.tag_counts = r.summary.tag_counts ∧
      (r.add_file path items).files_map = r.files_map) := by
  refine ⟨?_, ?_, ?_⟩
  · cases items with
    | nil => simp [ScanResult.add_file]
    | cons i is => simp [ScanResult.add_file]
  · intro hne
    have hemp : items.isEmpty = false := by
      cases items with
      | nil => exact absurd rfl hne
      | cons i is => rfl
    refine ⟨?_, ?_, ?_, ?_⟩
    · simp [ScanResult.add_file, hemp]
    · simp [ScanResult.add_file, hemp]
    · intro t
      simp [ScanResult.add_file, hemp, countOf_foldl_bump]
    · simp [ScanResult.add_file, hemp, lookupFile_insertFile]
  · intro he
    subst he
    simp [ScanResult.add_file]

/-- Witness for C5: one call with a non-empty list, one with an empty list. -/
theorem claim_C5_witness :
    (([⟨"TODO", "x", 1, 4, none, none, .Medium⟩] : List TodoItem) ≠ [] ∧
      ((ScanResult.new "/t").add_file "a.rs"
        [⟨"TODO", "x", 1, 4, none, none, .Medium⟩]).summary.files_with_todos
        = (ScanResult.new "/t").summary.files_with_todos + 1) ∧
    (([] : List TodoItem) = [] →
      ((ScanResult.new "/t").add_file "b.rs" []).summary.total_count
        = (ScanResult.new "/t").summary.total_count) := by
  refine ⟨⟨by decide, ?_⟩, fun h => ?_⟩
  · exact ((claim_C5_add_file (ScanResult.new "/t") "a.rs"
      [⟨"TODO", "x", 1, 4, none, none, .Medium⟩]).2.1 (by decide)).1
  · exact ((claim_C5_add_file (ScanResult.new "/t") "b.rs" []).2.2 rfl).2.1

/-! ## Claim C6 -/

theorem scanInv_new (root : String) : ScanInv (ScanResult.new root) := by
  refine ⟨rfl, Nat.le_refl 0, ?_⟩
  intro p its h
  simp [ScanResult.new, lookupFile] at h

theorem scanInv_add_file (r : ScanResult) (path : String) (items : List TodoItem)
    (h : ScanInv r) : ScanInv (r.add_file path items) := by
  obtain ⟨ht, hf, hmap⟩ := h
  cases items with
  | nil =>
    exact ⟨by simpa [ScanResult.add_file] using ht,
      by simp [ScanResult.add_file]; omega,
      by simpa [ScanResult.add_file] using hmap⟩
  | cons i is =>
    refine ⟨?_, ?_, ?_⟩
    · simp [ScanResult.add_file, sumValues_foldl_bump, sumValues_bumpTag]
      omega
    · simp [ScanResult.add_file]
      omega
    · intro p its hl
      simp only [ScanResult.add_file, List.isEmpty_cons, Bool.false_eq_true,
        if_false] at hl
      rw [lookupFile_insertFile] at hl
      by_cases hp : p = path
      · rw [if_pos hp] at hl
        cases hl
        simp
      · rw [if_neg hp] at hl
        exact hmap p its hl

theorem scanInv_foldl (l : List (String × List TodoItem)) (r : ScanResult)
    (h : ScanInv r) :
    ScanInv (l.foldl (fun acc pr => acc.add_file pr.1 pr.2) r) := by
  induction l generalizing r with
  | nil => exact h
  | cons pr rest ih =>
    exact ih _ (scanInv_add_file r pr.1 pr.2 h)

/-- **C6.** Every `ScanResult` built from the empty result by a sequence of
`add_file` calls with pairwise-distinct paths satisfies the invariants:
`total_count` equals the sum of the `tag_counts` values, `files_with_todos`
is at most `files_scanned`, and every path stored in the file mapping maps to
a non-empty item list. -/
theorem claim_C6_invariants (root : String) (l : List (String × List TodoItem))
    (hdist : l.Pairwise (fun a b => a.1 ≠ b.1)) :
    (l.foldl (fun acc pr => acc.add_file pr.1 pr.2)
        (ScanResult.new root)).summary.total_count =
      sumValues (l.foldl (fun acc pr => acc.add_file pr.1 pr.2)
        (ScanResult.new root)).summary.tag_counts ∧
    (l.foldl (fun acc pr => acc.add_file pr.1 pr.2)
        (ScanResult.new root)).summary.files_with_todos ≤
      (l.foldl (fun acc pr => acc.add_file pr.1 pr.2)
        (ScanResult.new root)).summary.files_scanned ∧
    ∀ p its,
      lookupFile (l.foldl (fun acc pr => acc.add_file pr.1 pr.2)
        (ScanResult.new root)).files_map p = some its → its ≠ [] := by
  exact scanInv_foldl l (ScanResult.new root) (scanInv_new root)

/-- Witness for C6 at a concrete two-file scan (one file with an item, one
without). -/
theorem claim_C6_witness :
    ([("a.rs", [(⟨"TODO", "x", 1, 4, none, none, .Medium⟩ : TodoItem)]),
      ("b.rs", ([] : List TodoItem))].Pairwise (fun a b => a.1 ≠ b.1)) ∧
    ([("a.rs", [(⟨"TODO", "x", 1, 4, none, none, .Medium⟩ : TodoItem)]),
      ("b.rs", ([] : List TodoItem))].foldl
        (fun acc pr => acc.add_file pr.1 pr.2)
        (ScanResult.new "/t")).summary.total_count =
      sumValues ([("a.rs", [(⟨"TODO", "x", 1, 4, none, none, .Medium⟩ : TodoItem)]),
        ("b.rs", ([] : List TodoItem))].foldl
          (fun acc pr => acc.add_file pr.1 pr.2)
          (ScanResult.new "/t")).summary.tag_counts := by
  refine ⟨by decide, ?_⟩
  exact (claim_C6_invariants "/t"
    [("a.rs", [⟨"TODO", "x", 1, 4, none, none, .Medium⟩]), ("b.rs", [])]
    (by decide)).1

/-! ## Claim C7: fold lemmas for `filter_by_tag` -/

theorem files_scanned_filterStep_foldl (t : String)
    (l : List (String × List TodoItem)) (acc : ScanResult) :
    (l.foldl (filterStep t) acc).summary.files_scanned =
      acc.summary.files_scanned +
        l.countP (fun pr => !(tagFilter t pr.2).isEmpty) := by
  induction l generalizing acc with
  | nil => simp
  | cons pr rest ih =>
    rw [List.foldl_cons, ih, List.countP_cons]
    by_cases h : (tagFilter t pr.2).isEmpty
    · simp [filterStep, h]
    · have h' : (tagFilter t pr.2).isEmpty = false := by
        cases he : (tagFilter t pr.2).isEmpty
        · rfl
        · exact absurd he h
      simp [filterStep, h', ScanResult.add_file]
      omega

theorem total_count_filterStep_foldl (t : String)
    (l : List (String × List TodoItem)) (acc : ScanResult) :
    (l.foldl (filterStep t) acc).summary.total_count =
      acc.summary.total_count +
        (l.map (fun pr => (tagFilter t pr.2).length)).sum := by
  induction l generalizing acc with
  | nil => simp
  | cons pr rest ih =>
    rw [List.foldl_cons, ih]
    cases he : (tagFilter t pr.2) with
    | nil => simp [filterStep, he]
    | cons i is =>
      simp [filterStep, he, ScanResult.add_file]
      omega

theorem key_prop_bumpTag (P : String → Prop) (m : List (String × Nat)) (tg : String)
    (hm : ∀ kv ∈ m, P kv.1) (htg : P tg) :
    ∀ kv ∈ bumpTag m tg, P kv.1 := by
  induction m with
  | nil =>
    intro kv hkv
    simp only [bumpTag, List.mem_cons, List.not_mem_nil, or_false] at hkv
    subst hkv
    exact htg
  | cons hd rest ih =>
    obtain ⟨k, v⟩ := hd
    intro kv hkv
    by_cases hk : k = tg
    · simp only [bumpTag, if_pos hk, List.mem_cons] at hkv
      rcases hkv with rfl | hkv
      · exact hm (k, v) (List.mem_cons_self _ _)
      · exact hm kv (List.mem_cons_of_mem _ hkv)
    · simp only [bumpTag, if_neg hk, List.mem_cons] at hkv
      rcases hkv with rfl | hkv
      · exact hm (k, v) (List.mem_cons_self _ _)
      · exact ih (fun kv' h' => hm kv' (List.mem_cons_of_mem _ h')) kv hkv

theorem key_prop_foldl_bump (P : String → Prop) (items : List TodoItem) :
    ∀ m : List (String × Nat), (∀ kv ∈ m, P kv.1) → (∀ it ∈ items, P it.tag) →
    ∀ kv ∈ items.foldl (fun acc it => bumpTag acc it.tag) m, P kv.1 := by
  induction items with
  | nil =>
    intro m hm _
    exact hm
  | cons it rest ih =>
    intro m hm hitems
    rw [List.foldl_cons]
    exact ih _ (key_prop_bumpTag P m it.tag hm (hitems it (List.mem_cons_self _ _)))
      (fun it' h' => hitems it' (List.mem_cons_of_mem _ h'))

theorem tag_keys_filterStep_foldl (t : String)
    (l : List (String × List TodoItem)) (acc : ScanResult)
    (hacc : ∀ kv ∈ acc.summary.tag_counts, eqIgnoreAsciiCase kv.1 t = true) :
    ∀ kv ∈ (l.foldl (filterStep t) acc).summary.tag_counts,
      eqIgnoreAsciiCase kv.1 t = true := by
  induction l generalizing acc with
  | nil => exact hacc
  | cons pr rest ih =>
    rw [List.foldl_cons]
    refine ih (filterStep t acc pr) ?_
    cases he : (tagFilter t pr.2) with
    | nil =>
      simpa [filterStep, he] using hacc
    | cons i is =>
      intro kv hkv
      simp only [filterStep, he, List.isEmpty_cons, Bool.false_eq_true, if_false,
        ScanResult.add_file, List.isEmpty_cons] at hkv
      refine key_prop_foldl_bump (fun k => eqIgnoreAsciiCase k t = true) (i :: is)
        acc.summary.tag_counts hacc ?_ kv hkv
      intro it hit
      have : it ∈ tagFilter t pr.2 := he ▸ hit
      exact (List.mem_filter.mp this).2

theorem lookup_filterStep_foldl_notmem (t : String)
    (l : List (String × List TodoItem)) (acc : ScanResult) (p : String)
    (hp : p ∉ l.map Prod.fst) :
    lookupFile (l.foldl (filterStep t) acc).files_map p =
      lookupFile acc.files_map p := by
  induction l generalizing acc with
  | nil => rfl
  | cons pr rest ih =>
    simp only [List.map_cons, List.mem_cons] at hp
    push_neg at hp
    rw [List.foldl_cons, ih _ hp.2]
    cases he : (tagFilter t pr.2) with
    | nil => simp [filterStep, he]
    | cons i is =>
      simp only [filterStep, he, List.isEmpty_cons, Bool.false_eq_true, if_false,
        ScanResult.add_file]
      rw [lookupFile_insertFile]
      exact if_neg hp.1

theorem lookup_filterStep_foldl_mem (t : String)
    (l : List (String × List TodoItem)) (acc : ScanResult) (p : String)
    (its : List TodoItem)
    (hnd : (l.map Prod.fst).Nodup) (hmem : (p, its) ∈ l) :
    lookupFile (l.foldl (filterStep t) acc).files_map p =
      (if (tagFilter t its).isEmpty then lookupFile acc.files_map p
       else some (tagFilter t its)) := by
  induction l generalizing acc with
  | nil => simp at hmem
  | cons pr rest ih =>
    simp only [List.map_cons, List.nodup_cons] at hnd
    rcases List.mem_cons.mp hmem with heq | hmem'
    · cases heq
      rw [List.foldl_cons,
        lookup_filterStep_foldl_notmem t rest (filterStep t acc (p, its)) p hnd.1]
      cases he : (tagFilter t its) with
      | nil => simp [filterStep, he]
      | cons i is =>
        simp only [filterStep, he, List.isEmpty_cons, Bool.false_eq_true, if_false,
          ScanResult.add_file]
        rw [lookupFile_insertFile]
        simp [he]
    · have hpk : p ≠ pr.1 := by
        intro hc
        exact hnd.1 (hc ▸ (List.mem_map.mpr ⟨(p, its), hmem', rfl⟩))
      rw [List.foldl_cons, ih _ hnd.2 hmem']
      cases he : (tagFilter t pr.2) with
      | nil => simp [filterStep, he]
      | cons i is =>
        simp only [filterStep, he, List.isEmpty_cons, Bool.false_eq_true, if_false,
          ScanResult.add_file]
        rw [lookupFile_insertFile, if_neg hpk]

/-- **C7 counterexample.** `filter_by_tag` does **not** copy `files_scanned`
from the source: on the result of a single `add_file` of one TODO item the
source has `files_scanned = 1` while the filtered result has
`files_scanned = 2` (the replayed `add_file` increments it again). -/
theorem claim_C7_counterexample :
    (((ScanResult.new "/test").add_file "a.rs"
        [⟨"TODO", "x", 1, 4, none, none, .Medium⟩]).filter_by_tag "TODO").summary.files_scanned = 2 ∧
    ((ScanResult.new "/test").add_file "a.rs"
        [⟨"TODO", "x", 1, 4, none, none, .Medium⟩]).summary.files_scanned = 1 ∧
    (((ScanResult.new "/test").add_file "a.rs"
        [⟨"TODO", "x", 1, 4, none, none, .Medium⟩]).filter_by_tag "TODO").summary.files_scanned ≠
      ((ScanResult.new "/test").add_file "a.rs"
        [⟨"TODO", "x", 1, 4, none, none, .Medium⟩]).summary.files_scanned := by
  refine ⟨by decide, by decide, by decide⟩

/-- **C7 (amended).** For every `ScanResult` whose stored paths are distinct
and whose `total_count` equals the total stored item count (both hold for
any result built by `add_file` with distinct paths), `filter_by_tag t`
returns a new result that (a) contains under each stored path exactly that
path's items whose tag ASCII-case-insensitively equals `t` (paths all of
whose items are filtered away, and unstored paths, are absent); (b) has
`files_scanned` equal to the source's `files_scanned` **plus the number of
stored files with at least one matching item** (not a copy — each replayed
`add_file` increments it); (c) never exceeds the source's `total_count`; and
(d) has only keys ASCII-case-insensitively equal to `t` in `tag_counts`.
(The source is not mutated: `filter_by_tag` is a pure function of it.) -/
theorem claim_C7_filter_by_tag (r : ScanResult) (t : String)
    (hnd : (r.files_map.map Prod.fst).Nodup)
    (ht : r.summary.total_count = (r.files_map.map (fun pr => pr.2.length)).sum) :
    (r.filter_by_tag t).summary.files_scanned =
      r.summary.files_scanned +
        r.files_map.countP (fun pr => !(tagFilter t pr.2).isEmpty) ∧
    (r.filter_by_tag t).summary.total_count ≤ r.summary.total_count ∧
    (∀ kv ∈ (r.filter_by_tag t).summary.tag_counts,
      eqIgnoreAsciiCase kv.1 t = true) ∧
    (∀ p its, (p, its) ∈ r.files_map →
      lookupFile (r.filter_by_tag t).files_map p =
        (if (tagFilter t its).isEmpty then none else some (tagFilter t its))) ∧
    (∀ p, p ∉ r.files_map.map Prod.fst →
      lookupFile (r.filter_by_tag t).files_map p = none) := by
  refine ⟨?_, ?_, ?_, ?_, ?_⟩
  · rw [ScanResult.filter_by_tag, files_scanned_filterStep_foldl]
  · rw [ScanResult.filter_by_tag, total_count_filterStep_foldl, ht]
    have h0 : (ScanResult.new (r.root.getD ".")).summary.total_count = 0 := rfl
    rw [h0, Nat.zero_add]
    refine List.sum_le_sum (fun pr _ => ?_)
    simp only [tagFilter]
    exact List.length_filter_le _ _
  · refine tag_keys_filterStep_foldl t r.files_map _ ?_
    intro kv hkv
    simp [ScanResult.new] at hkv
  · intro p its hmem
    rw [ScanResult.filter_by_tag, lookup_filterStep_foldl_mem t r.files_map _ p its hnd hmem]
    cases he : (tagFilter t its).isEmpty
    · simp
    · simp [lookupFile]
  · intro p hp
    rw [ScanResult.filter_by_tag, lookup_filterStep_foldl_notmem t r.files_map _ p hp]
    rfl

/-- Witness for the amended C7 at a concrete source result (one file with a
TODO and a FIXME item, one with a NOTE item). -/
theorem claim_C7_witness :
    ((((ScanResult.new "/test").add_file "a.rs"
          [⟨"TODO", "x", 1, 4, none, none, .Medium⟩,
           ⟨"FIXME", "y", 2, 4, none, none, .Critical⟩]).add_file "b.rs"
          [⟨"NOTE", "z", 3, 4, none, none, .Low⟩]).files_map.map Prod.fst).Nodup ∧
    ((((ScanResult.new "/test").add_file "a.rs"
          [⟨"TODO", "x", 1, 4, none, none, .Medium⟩,
           ⟨"FIXME", "y", 2, 4, none, none, .Critical⟩]).add_file "b.rs"
          [⟨"NOTE", "z", 3, 4, none, none, .Low⟩]).filter_by_tag "TODO").summary.total_count ≤
      (((ScanResult.new "/test").add_file "a.rs"
          [⟨"TODO", "x", 1, 4, none, none, .Medium⟩,
           ⟨"FIXME", "y", 2, 4, none, none, .Critical⟩]).add_file "b.rs"
          [⟨"NOTE", "z", 3, 4, none, none, .Low⟩]).summary.total_count ∧
    lookupFile ((((ScanResult.new "/test").add_file "a.rs"
          [⟨"TODO", "x", 1, 4, none, none, .Medium⟩,
           ⟨"FIXME", "y", 2, 4, none, none, .Critical⟩]).add_file "b.rs"
          [⟨"NOTE", "z", 3, 4, none, none, .Low⟩]).filter_by_tag "TODO").files_map "b.rs" = none := by
  refine ⟨by decide, ?_, ?_⟩
  · exact (claim_C7_filter_by_tag _ "TODO" (by decide) (by decide)).2.1
  · have h := (claim_C7_filter_by_tag (((ScanResult.new "/test").add_file "a.rs"
      [⟨"TODO", "x", 1, 4, none, none, .Medium⟩,
       ⟨"FIXME", "y", 2, 4, none, none, .Critical⟩]).add_file "b.rs"
      [⟨"NOTE", "z", 3, 4, none, none, .Low⟩]) "TODO" (by decide) (by decide)).2.2.2.1
      "b.rs" [⟨"NOTE", "z", 3, 4, none, none, .Low⟩] (by decide)
    rw [h]
    decide

/-! ## Inversion lemmas for the pattern matcher -/

theorem matchLit_decomp (ci : Bool) (t s s' : List Char)
    (h : matchLit ci t s = some s') :
    ∃ pre, s = pre ++ s' ∧ pre.length = t.length ∧
      List.Forall₂ (fun a b => charMatches ci a b = true) t pre := by
  induction t generalizing s with
  | nil =>
    refine ⟨[], ?_, rfl, List.Forall₂.nil⟩
    simpa [matchLit] using h
  | cons p ps ih =>
    cases s with
    | nil => simp [matchLit] at h
    | cons c cs =>
      by_cases hc : charMatches ci p c
      · simp only [matchLit, if_pos hc] at h
        obtain ⟨pre, heq, hlen, hall⟩ := ih cs h
        exact ⟨c :: pre, by simp [heq], by simp [hlen],
          List.Forall₂.cons hc hall⟩
      · simp [matchLit, hc] at h

theorem matchLit_take (ci : Bool) (t s s' : List Char)
    (h : matchLit ci t s = some s') :
    s.take t.length = (s.take t.length) ∧
    s = s.take t.length ++ s' ∧ (s.take t.length).length = t.length ∧
    List.Forall₂ (fun a b => charMatches ci a b = true) t (s.take t.length) := by
  obtain ⟨pre, heq, hlen, hall⟩ := matchLit_decomp ci t s s' h
  have htake : s.take t.length = pre := by
    rw [heq, ← hlen]
    exact List.take_left pre s'
  rw [htake]
  exact ⟨rfl, heq ▸ rfl, hlen, hall⟩

theorem matchMarkerAlt_decomp (ci : Bool) (alt : Marker) (s s2 : List Char)
    (h : matchMarkerAlt ci alt s = some s2) : ∃ pre, s = pre ++ s2 := by
  cases alt with
  | lit l =>
    obtain ⟨pre, heq, _, _⟩ := matchLit_decomp ci l s s2 h
    exact ⟨pre, heq⟩
  | remWs =>
    simp only [matchMarkerAlt] at h
    cases hrem : matchLit ci ['R', 'E', 'M'] s with
    | none => rw [hrem] at h; exact absurd h (by simp)
    | some s1 =>
      rw [hrem] at h
      cases s1 with
      | nil => exact absurd h (by simp)
      | cons c rest =>
        by_cases hws : isWsChar c
        · simp only [if_pos hws] at h
          cases h
          obtain ⟨pre, heq, _, _⟩ := matchLit_decomp ci _ s _ hrem
          exact ⟨pre ++ [c], by simp [heq]⟩
        · simp [hws] at h

theorem tryWs_spec (ci : Bool) (tags : List (List Char)) (s : List Char)
    (k j : Nat) (r : List Char × Option (List Char) × List Char)
    (h : tryWs ci tags s k = some (j, r)) :
    j ≤ k ∧ matchTagRest ci tags (s.drop j) = some r := by
  induction k with
  | zero =>
    simp only [tryWs] at h
    cases hm : matchTagRest ci tags s with
    | none => simp [hm] at h
    | some r0 =>
      simp only [hm, Option.map_some'] at h
      cases h
      exact ⟨Nat.le_refl 0, by rw [List.drop_zero]; exact hm⟩
  | succ k ih =>
    simp only [tryWs] at h
    cases hm : matchTagRest ci tags (s.drop (k + 1)) with
    | none =>
      rw [hm] at h
      obtain ⟨hle, hrest⟩ := ih h
      exact ⟨Nat.le_succ_of_le hle, hrest⟩
    | some r0 =>
      rw [hm] at h
      cases h
      exact ⟨Nat.le_refl _, hm⟩

theorem matchTagRest_spec (ci : Bool) (tags : List (List Char)) (s : List Char)
    (raw : List Char) (a : Option (List Char)) (m : List Char)
    (h : matchTagRest ci tags s = some (raw, a, m)) :
    ∃ t ∈ tags, (matchLit ci t s).isSome ∧ raw = s.take t.length ∧
      raw.length = t.length ∧
      List.Forall₂ (fun x y => charMatches ci x y = true) t raw := by
  obtain ⟨t, hmem, hsome⟩ := List.exists_of_findSome?_eq_some h
  cases hlit : matchLit ci t s with
  | none => simp [hlit] at hsome
  | some s2 =>
    simp only [hlit] at hsome
    cases hat : afterTag s2 with
    | none => simp [hat] at hsome
    | some pr =>
      obtain ⟨a0, s3⟩ := pr
      simp only [hat, Option.some_inj, Prod.mk.injEq] at hsome
      obtain ⟨hraw, -, -⟩ := hsome
      obtain ⟨-, -, hlen, hall⟩ := matchLit_take ci t s s2 hlit
      refine ⟨t, hmem, by rw [hlit]; rfl, hraw.symm, ?_, hraw ▸ hall⟩
      rw [hraw] at hlen
      exact hlen

theorem matchAt_spec (ci : Bool) (tags : List (List Char)) (s : List Char)
    (mr : MatchRes) (h : matchAt ci tags s = some mr) :
    ∃ alt ∈ markerAlts, ∃ s2, matchMarkerAlt ci alt s = some s2 ∧
      ∃ k, k ≤ (s2.takeWhile isWsChar).length ∧
        mr.tagStart = s.length - s2.length + k ∧
        matchTagRest ci tags (s2.drop k) = some (mr.rawTag, mr.author, mr.msg) := by
  obtain ⟨alt, hmem, hsome⟩ := List.exists_of_findSome?_eq_some h
  cases hma : matchMarkerAlt ci alt s with
  | none => simp [hma] at hsome
  | some s2 =>
    simp only [hma] at hsome
    cases htw : tryWs ci tags s2 ((s2.takeWhile isWsChar).length) with
    | none => simp [htw] at hsome
    | some pr =>
      obtain ⟨k, rawTag, author, msg⟩ := pr
      simp only [htw] at hsome
      obtain ⟨hk, hrest⟩ := tryWs_spec ci tags s2 _ k (rawTag, author, msg) htw
      cases hsome
      exact ⟨alt, hmem, s2, hma, k, hk, rfl, hrest⟩

theorem matchAt_pos (ci : Bool) (tags : List (List Char)) (s : List Char)
    (mr : MatchRes) (h : matchAt ci tags s = some mr) :
    mr.tagStart ≤ s.length ∧
    (s.drop mr.tagStart).take mr.rawTag.length = mr.rawTag ∧
    ∃ t ∈ tags, t.length = mr.rawTag.length ∧
      List.Forall₂ (fun x y => charMatches ci x y = true) t mr.rawTag := by
  obtain ⟨alt, -, s2, hma, k, hk, hts, hrest⟩ := matchAt_spec ci tags s mr h
  obtain ⟨pre, hpre⟩ := matchMarkerAlt_decomp ci alt s s2 hma
  have hlen : s.length = pre.length + s2.length := by
    rw [hpre, List.length_append]
  have hts' : mr.tagStart = pre.length + k := by
    rw [hts, hlen]
    omega
  have hkws := length_takeWhile_le' isWsChar s2
  obtain ⟨t, hmem, -, hraw, hlen', hall⟩ :=
    matchTagRest_spec ci tags (s2.drop k) _ _ _ hrest
  refine ⟨by omega, ?_, t, hmem, hlen'.symm, hall⟩
  rw [hts', hpre, List.drop_append, hlen', ← hraw]

theorem searchFrom_spec (ci : Bool) (tags : List (List Char)) :
    ∀ (s : List Char) (i : Nat) (m : MatchRes),
    searchFrom ci tags s i = some m →
    i ≤ m.tagStart ∧ m.tagStart - i ≤ s.length ∧
    (s.drop (m.tagStart - i)).take m.rawTag.length = m.rawTag ∧
    ∃ t ∈ tags, t.length = m.rawTag.length ∧
      List.Forall₂ (fun x y => charMatches ci x y = true) t m.rawTag := by
  intro s
  induction s with
  | nil =>
    intro i m h
    rw [searchFrom] at h
    cases hm : matchAt ci tags [] with
    | none => rw [hm] at h; cases h
    | some mr =>
      rw [hm] at h
      cases h
      obtain ⟨hle, hdt, hex⟩ := matchAt_pos ci tags [] mr hm
      simp only [List.length_nil, Nat.le_zero] at hle
      refine ⟨by simp, by simp [hle], ?_, hex⟩
      simp only [Nat.add_sub_cancel_left]
      simpa [hle] using hdt
  | cons c rest ih =>
    intro i m h
    rw [searchFrom] at h
    cases hm : matchAt ci tags (c :: rest) with
    | some mr =>
      rw [hm] at h
      cases h
      obtain ⟨hle, hdt, hex⟩ := matchAt_pos ci tags (c :: rest) mr hm
      refine ⟨Nat.le_add_right i mr.tagStart, ?_, ?_, hex⟩
      · simp only [MatchRes.mk.injEq]
        omega
      · have : i + mr.tagStart - i = mr.tagStart := by omega
        simpa [this] using hdt
    | none =>
      rw [hm] at h
      obtain ⟨hle, hdt, htk, hex⟩ := ih (i + 1) m h
      refine ⟨by omega, by simp; omega, ?_, hex⟩
      have hsub : m.tagStart - i = (m.tagStart - (i + 1)) + 1 := by omega
      rw [hsub]
      simpa using htk

/-! ## Claim C1 -/

theorem matchAt_markerTagHere (ci : Bool) (tags : List (List Char))
    (s : List Char) (mr : MatchRes) (h : matchAt ci tags s = some mr) :
    markerTagHere ci tags s = true := by
  obtain ⟨alt, hmem, s2, hma, k, hk, -, hrest⟩ := matchAt_spec ci tags s mr h
  obtain ⟨t, htmem, hlit, -, -, -⟩ := matchTagRest_spec ci tags (s2.drop k) _ _ _ hrest
  refine List.any_eq_true.mpr ⟨alt, hmem, ?_⟩
  simp only [hma]
  refine List.any_eq_true.mpr ⟨k, List.mem_range.mpr (by omega), ?_⟩
  exact List.any_eq_true.mpr ⟨t, htmem, hlit⟩

theorem searchFrom_eq_none (ci : Bool) (tags : List (List Char)) :
    ∀ (s : List Char) (i : Nat), hasMarkerTag ci tags s = false →
    searchFrom ci tags s i = none := by
  intro s
  induction s with
  | nil =>
    intro i h
    rw [searchFrom]
    cases hm : matchAt ci tags [] with
    | some mr =>
      have := matchAt_markerTagHere ci tags [] mr hm
      rw [hasMarkerTag] at h
      rw [h] at this
      cases this
    | none => rfl
  | cons c rest ih =>
    intro i h
    have h2 : markerTagHere ci tags (c :: rest) = false ∧
        hasMarkerTag ci tags rest = false := by
      rw [hasMarkerTag, Bool.or_eq_false_iff] at h
      exact h
    rw [searchFrom]
    cases hm : matchAt ci tags (c :: rest) with
    | some mr =>
      have := matchAt_markerTagHere ci tags (c :: rest) mr hm
      rw [h2.1] at this
      cases this
    | none => exact ih (i + 1) h2.2

/-- **C1.** For every tag list, every case-sensitivity setting and every line
in which no comment marker of the fixed set is followed (modulo the
whitespace run after it) by a tag-shaped token, `parse_line` returns none:
the compiled pattern cannot match without its mandatory leading
marker-then-tag prefix. -/
theorem claim_C1_no_marker_no_match (tags : List String) (cs : Bool)
    (line : String) (n : Nat)
    (h : hasMarkerTag (!cs) (tags.map String.data) line.data = false) :
    TodoParser.parse_line ⟨tags, cs⟩ line n = none := by
  rw [TodoParser.parse_line]
  by_cases he : tags.isEmpty
  · rw [if_pos he]
  · rw [if_neg he, searchFrom_eq_none (!cs) (tags.map String.data) line.data 0 h]

/-- Witness for C1 at the JSON package-script line of Scenario C with a tag
list containing `"TEST"`: the line holds no comment marker at all, so the
guard evaluates to false and `parse_line` yields no match. -/
theorem claim_C1_witness :
    hasMarkerTag (!false)
        ((["TODO", "FIXME", "TEST", "NOTE"] : List String).map String.data)
        "    \"test:ci\": \"turbo run test\",".data = false ∧
    TodoParser.parse_line ⟨["TODO", "FIXME", "TEST", "NOTE"], false⟩
      "    \"test:ci\": \"turbo run test\"," 1 = none := by
  refine ⟨by decide, ?_⟩
  exact claim_C1_no_marker_no_match ["TODO", "FIXME", "TEST", "NOTE"] false
    "    \"test:ci\": \"turbo run test\"," 1 (by decide)

/-! ## Claim C3 -/

theorem forall₂_charMatches_false (t raw : List Char)
    (h : List.Forall₂ (fun x y => charMatches false x y = true) t raw) :
    t = raw := by
  induction h with
  | nil => rfl
  | @cons x y xs ys hxy _ ih =>
    have hx : x = y := by simpa [charMatches] using hxy
    rw [hx, ih]

theorem parse_line_tag_spelling (tags : List String) (cs : Bool) (line : String)
    (n : Nat) (item : TodoItem)
    (h : TodoParser.parse_line ⟨tags, cs⟩ line n = some item) :
    (cs = true → item.tag ∈ tags) ∧
    (cs = false →
      (item.tag ∈ tags ∨ ∀ T ∈ tags, eqIgnoreAsciiCase T item.tag = false)) := by
  rw [TodoParser.parse_line] at h
  by_cases he : (⟨tags, cs⟩ : TodoParser).tags.isEmpty
  · rw [if_pos he] at h
    cases h
  · rw [if_neg he] at h
    cases hs : searchFrom (!(⟨tags, cs⟩ : TodoParser).case_sensitive)
        ((⟨tags, cs⟩ : TodoParser).tags.map String.data) line.data 0 with
    | none =>
      rw [hs] at h
      cases h
    | some m =>
      rw [hs] at h
      have hitem := Option.some.inj h
      cases cs with
      | true =>
        refine ⟨fun _ => ?_, fun hc => Bool.noConfusion hc⟩
        obtain ⟨-, -, -, t, htmem, -, hall⟩ :=
          searchFrom_spec _ _ line.data 0 m hs
        obtain ⟨T, hTmem, hTdata⟩ := List.mem_map.mp htmem
        have hraw : t = m.rawTag :=
          forall₂_charMatches_false t m.rawTag (by simpa using hall)
        have htag : item.tag = (if (true : Bool) then (⟨m.rawTag⟩ : String)
            else ((tags.find? (fun t' => eqIgnoreAsciiCase t' (⟨m.rawTag⟩ : String))).getD
              ⟨m.rawTag⟩)) := by
          rw [← hitem]
        rw [htag, if_pos rfl, ← hraw, ← hTdata]
        exact hTmem
      | false =>
        refine ⟨fun hc => Bool.noConfusion hc, fun _ => ?_⟩
        have htag : item.tag = (if (false : Bool) then (⟨m.rawTag⟩ : String)
            else ((tags.find? (fun t' => eqIgnoreAsciiCase t' (⟨m.rawTag⟩ : String))).getD
              ⟨m.rawTag⟩)) := by
          rw [← hitem]
        rw [htag, if_neg (by simp)]
        cases hfind : tags.find? (fun t' => eqIgnoreAsciiCase t' (⟨m.rawTag⟩ : String)) with
        | some t0 =>
          refine Or.inl ?_
          rw [Option.getD_some]
          exact List.mem_of_find?_eq_some hfind
        | none =>
          refine Or.inr ?_
          intro T hT
          have hne := List.find?_eq_none.mp hfind T hT
          rw [Option.getD_none]
          cases hb : eqIgnoreAsciiCase T (⟨m.rawTag⟩ : String)
          · rfl
          · exact absurd hb hne

/-- **C3 counterexample.** The claim that in case-insensitive mode every
matched occurrence is emitted with a configured spelling is false of the
program: the regex crate matches under Unicode simple case folding while the
normalization lookup uses `eq_ignore_ascii_case` (ASCII-only), so the
`unwrap_or` fallback can emit raw unconfigured text.  With `["HACK"]`
configured, the line `"// HAC\u212A: x"` (final letter U+212A KELVIN
SIGN, which folds to `k`) matches, the ASCII lookup finds nothing, and the
emitted tag is the raw `"HAC\u212A"` — not in the configured list. -/
theorem claim_C3_counterexample :
    TodoParser.parse_line ⟨["HACK"], false⟩ "// HAC\u212A: x" 1 =
      some ⟨"HAC\u212A", "x", 1, 4, some "// HAC\u212A: x", none, .Medium⟩ ∧
    "HAC\u212A" ∉ (["HACK"] : List String) := by
  exact ⟨by decide, by decide⟩

/-- **C3 (amended).** Whenever `parse_line` returns an item: in
case-sensitive mode the emitted tag is the exactly-matched configured
spelling, hence in the configured list; in case-insensitive mode the emitted
tag is either a configured spelling (the ASCII-case-insensitive lookup
succeeded) or — when the match was possible only through non-ASCII Unicode
simple case folding — the raw matched text, which then differs
ASCII-case-insensitively from every configured tag.  Concretely, with
`["TODO","FIXME"]` configured, case-insensitive parsing of `"// todo: x"`
and `"// TODO: x"` both surface `"TODO"`, while case-sensitive parsing
rejects `"// todo: x"` and emits `"TODO"` for `"// TODO: x"`. -/
theorem claim_C3_tag_normalization :
    (∀ (tags : List String) (cs : Bool) (line : String) (n : Nat) (item : TodoItem),
      TodoParser.parse_line ⟨tags, cs⟩ line n = some item →
      (cs = true → item.tag ∈ tags) ∧
      (cs = false →
        (item.tag ∈ tags ∨ ∀ T ∈ tags, eqIgnoreAsciiCase T item.tag = false))) ∧
    ((TodoParser.mk ["TODO", "FIXME"] false).parse_line "// todo: x" 1).map TodoItem.tag
      = some "TODO" ∧
    ((TodoParser.mk ["TODO", "FIXME"] false).parse_line "// TODO: x" 1).map TodoItem.tag
      = some "TODO" ∧
    (TodoParser.mk ["TODO", "FIXME"] true).parse_line "// todo: x" 1 = none ∧
    ((TodoParser.mk ["TODO", "FIXME"] true).parse_line "// TODO: x" 1).map TodoItem.tag
      = some "TODO" := by
  exact ⟨parse_line_tag_spelling, by decide, by decide, by decide, by decide⟩

/-- Witness for the amended C3: the case-sensitive clause applied at the
parse of `"// TODO: x"` with `["TODO","FIXME"]`. -/
theorem claim_C3_witness :
    (TodoItem.mk "TODO" "x" 1 4 (some "// TODO: x") none .Medium).tag ∈
      (["TODO", "FIXME"] : List String) := by
  exact (claim_C3_tag_normalization.1 ["TODO", "FIXME"] true "// TODO: x" 1
    (TodoItem.mk "TODO" "x" 1 4 (some "// TODO: x") none .Medium) (by decide)).1 rfl

/-! ## Claim C10 -/

/-- **C10.** The column of a returned `TodoItem` is 1 plus the UTF-8 byte
offset of the tag's match start within the line (`Match::start` is a byte
offset): whenever `parse_line` succeeds and the underlying search reports the
tag at character index `tagStart` (the reported raw tag text indeed starts
there), the column equals `utf8Len` of the prefix plus one, and if that
prefix contains a multi-byte character the column strictly exceeds the tag's
1-indexed character position `tagStart + 1`.  Concretely,
`"café // TODO: add milk"` yields column 10 (bytes) where the character
position is 9. -/
theorem claim_C10_byte_column :
    (∀ (tags : List String) (cs : Bool) (line : String) (n : Nat)
      (item : TodoItem) (m : MatchRes),
      TodoParser.parse_line ⟨tags, cs⟩ line n = some item →
      searchFrom (!cs) (tags.map String.data) line.data 0 = some m →
      item.column = utf8Len (line.data.take m.tagStart) + 1 ∧
      m.tagStart ≤ line.data.length ∧
      (line.data.drop m.tagStart).take m.rawTag.length = m.rawTag ∧
      ((∃ c ∈ line.data.take m.tagStart, 1 < c.utf8Size) →
        m.tagStart + 1 < item.column)) ∧
    ((TodoParser.mk ["TODO"] false).parse_line "café // TODO: add milk" 1).map
      TodoItem.column = some 10 := by
  constructor
  · intro tags cs line n item m h hm
    obtain ⟨-, hle, htk, -⟩ := searchFrom_spec (!cs) (tags.map String.data) line.data 0 m hm
    simp only [Nat.sub_zero] at hle htk
    rw [TodoParser.parse_line] at h
    by_cases he : (⟨tags, cs⟩ : TodoParser).tags.isEmpty
    · rw [if_pos he] at h
      cases h
    · rw [if_neg he] at h
      rw [hm] at h
      cases h
      refine ⟨rfl, hle, htk, ?_⟩
      intro hbig
      have hlt := lt_utf8Len_of_big (line.data.take m.tagStart) hbig
      have hlen : (line.data.take m.tagStart).length = m.tagStart := by
        rw [List.length_take]
        omega
      show m.tagStart + 1 < utf8Len (line.data.take m.tagStart) + 1
      omega
  · decide

/-- Witness for C10: the concrete multi-byte line `"café // TODO: add milk"`
(the tag starts at character index 8, byte offset 9, so the column is 10 and
strictly exceeds the character position 9). -/
theorem claim_C10_witness :
    (TodoItem.mk "TODO" "add milk" 1 10 (some "café // TODO: add milk") none
      .Medium).column =
      utf8Len ("café // TODO: add milk".data.take 8) + 1 ∧
    8 + 1 < (TodoItem.mk "TODO" "add milk" 1 10 (some "café // TODO: add milk") none
      .Medium).column := by
  have h := claim_C10_byte_column.1 ["TODO"] false "café // TODO: add milk" 1
    (TodoItem.mk "TODO" "add milk" 1 10 (some "café // TODO: add milk") none .Medium)
    (MatchRes.mk 8 "TODO".data none "add milk".data)
    (by decide) (by decide)
  exact ⟨h.1, h.2.2.2 (by decide)⟩
